import Mathlib

/-!
Verification development for the oddspedia-surebet-actor repository.

The core under verification is the odds-normalization and arbitrage-allocation
engine (`detectOddsFormat`, `toDecimal`, `calculateSurebetAllocation`) in its
final revision ("Revision 4", the variant with the divisible-by-5 tie-break,
`DECIMAL_MIN = 1.01` / `DECIMAL_MAX = 1000`, 2- and 3-way market support and a
non-fatal high-margin advisory).

JavaScript numbers are modelled by `JSNum`: an exact rational together with the
special values Infinity, -Infinity and NaN, with arithmetic and comparison
following the JavaScript semantics that the source relies on (division by zero
yields an infinity or NaN, every comparison involving NaN is false, and so on).
The sign of zero is not tracked: every zero is modelled as +0, which agrees
with the source on all reachable paths (divisors are absolute values, parsed
non-negative digit strings, or guardrail-checked decimal odds).  Rational
arithmetic stands in for double-precision arithmetic: the claims under study
are about the algorithm, not about binary rounding error.

Thrown JavaScript errors are modelled as `Except` values (`OddsError`), and the
human-readable message strings of the evaluator's result are modelled by the
`Message` tag type, one tag per distinct message of the source.
-/

/-- Model of a JavaScript number: a finite (exact) rational, an infinity,
or NaN. -/
inductive JSNum where
  | fin (q : ℚ)
  | inf
  | ninf
  | nan
deriving DecidableEq, Repr

/-- JavaScript `+`. -/
def jadd : JSNum → JSNum → JSNum
  | .nan, _ => .nan
  | _, .nan => .nan
  | .fin a, .fin b => .fin (a + b)
  | .fin _, .inf => .inf
  | .fin _, .ninf => .ninf
  | .inf, .fin _ => .inf
  | .inf, .inf => .inf
  | .inf, .ninf => .nan
  | .ninf, .fin _ => .ninf
  | .ninf, .inf => .nan
  | .ninf, .ninf => .ninf

/-- JavaScript `-` (binary). -/
def jsub : JSNum → JSNum → JSNum
  | .nan, _ => .nan
  | _, .nan => .nan
  | .fin a, .fin b => .fin (a - b)
  | .fin _, .inf => .ninf
  | .fin _, .ninf => .inf
  | .inf, .fin _ => .inf
  | .inf, .inf => .nan
  | .inf, .ninf => .inf
  | .ninf, .fin _ => .ninf
  | .ninf, .inf => .ninf
  | .ninf, .ninf => .nan

/-- JavaScript `*`. -/
def jmul : JSNum → JSNum → JSNum
  | .nan, _ => .nan
  | _, .nan => .nan
  | .fin a, .fin b => .fin (a * b)
  | .fin a, .inf => if 0 < a then .inf else if a < 0 then .ninf else .nan
  | .fin a, .ninf => if 0 < a then .ninf else if a < 0 then .inf else .nan
  | .inf, .fin b => if 0 < b then .inf else if b < 0 then .ninf else .nan
  | .inf, .inf => .inf
  | .inf, .ninf => .ninf
  | .ninf, .fin b => if 0 < b then .ninf else if b < 0 then .inf else .nan
  | .ninf, .inf => .ninf
  | .ninf, .ninf => .inf

/-- JavaScript `/` (zero modelled as +0, so `x / 0` with `x > 0` is Infinity). -/
def jdiv : JSNum → JSNum → JSNum
  | .nan, _ => .nan
  | _, .nan => .nan
  | .fin a, .fin b =>
      if b = 0 then (if 0 < a then .inf else if a < 0 then .ninf else .nan)
      else .fin (a / b)
  | .fin _, .inf => .fin 0
  | .fin _, .ninf => .fin 0
  | .inf, .fin b => if 0 ≤ b then .inf else .ninf
  | .inf, .inf => .nan
  | .inf, .ninf => .nan
  | .ninf, .fin b => if 0 ≤ b then .ninf else .inf
  | .ninf, .inf => .nan
  | .ninf, .ninf => .nan

/-- JavaScript `<` (false whenever NaN is involved). -/
def jlt : JSNum → JSNum → Bool
  | .nan, _ => false
  | _, .nan => false
  | .fin a, .fin b => decide (a < b)
  | .fin _, .inf => true
  | .fin _, .ninf => false
  | .inf, _ => false
  | .ninf, .ninf => false
  | .ninf, _ => true

/-- JavaScript `>`. -/
def jgt (x y : JSNum) : Bool := jlt y x

/-- JavaScript `>=` (false whenever NaN is involved). -/
def jge : JSNum → JSNum → Bool
  | .nan, _ => false
  | _, .nan => false
  | .fin a, .fin b => decide (b ≤ a)
  | .fin _, .inf => false
  | .fin _, .ninf => true
  | .inf, _ => true
  | .ninf, .ninf => true
  | .ninf, _ => false

/-- JavaScript `===` on numbers (NaN is not equal to itself). -/
def jeq : JSNum → JSNum → Bool
  | .fin a, .fin b => decide (a = b)
  | .inf, .inf => true
  | .ninf, .ninf => true
  | _, _ => false

/-- JavaScript `Math.abs`. -/
def jabs : JSNum → JSNum
  | .fin a => .fin |a|
  | .nan => .nan
  | _ => .inf

/-- Truncation toward zero, as used by the JavaScript `%` operator. -/
def jsTruncQ (q : ℚ) : ℤ := if 0 ≤ q then ⌊q⌋ else ⌈q⌉

/-- JavaScript `%` (remainder with the sign of the dividend). -/
def jmod : JSNum → JSNum → JSNum
  | .fin a, .fin b =>
      if b = 0 then .nan else .fin (a - b * (jsTruncQ (a / b) : ℚ))
  | .fin a, .inf => .fin a
  | .fin a, .ninf => .fin a
  | _, _ => .nan

/-- JavaScript `Number.isInteger`. -/
def jsIsInteger : JSNum → Bool
  | .fin a => decide (a.den = 1)
  | _ => false

/-- JavaScript `Number.isNaN`. -/
def jsIsNaN : JSNum → Bool
  | .nan => true
  | _ => false

/-- Rounding a rational to two decimal places, the effect of
`parseFloat(x.toFixed(2))` on a finite value. -/
def round2Q (q : ℚ) : ℚ := ((round (q * 100) : ℤ) : ℚ) / 100

/-- `parseFloat(x.toFixed(2))`: rounds a finite value to two decimals and is
the identity on Infinity, -Infinity and NaN. -/
def round2 : JSNum → JSNum
  | .fin q => .fin (round2Q q)
  | x => x

-- ────────────────────────────────────────────────────────────
--  JavaScript string primitives used by the odds parser
-- ────────────────────────────────────────────────────────────

/-- ASCII decimal digit test (the `\d` character class). -/
def isDigitCh (c : Char) : Bool := 48 ≤ c.toNat && c.toNat ≤ 57

/-- Whitespace test (the `\s` class / `trim`, restricted to the whitespace
characters that actually occur in odds feeds). -/
def isWsCh (c : Char) : Bool := c = ' ' || c = '\t' || c = '\n' || c = '\r'

/-- JavaScript `String.prototype.trim`. -/
def jsTrim (l : List Char) : List Char :=
  ((l.dropWhile isWsCh).reverse.dropWhile isWsCh).reverse

/-- The regular expression test for fractional odds, as in the source:
digits, optional whitespace, a slash, optional whitespace, digits,
anchored at both ends (applied to the trimmed string). -/
def matchFractional (l : List Char) : Bool :=
  let d1 := l.takeWhile isDigitCh
  let r1 := (l.dropWhile isDigitCh).dropWhile isWsCh
  match r1 with
  | '/' :: r2 =>
      let r3 := r2.dropWhile isWsCh
      let d2 := r3.takeWhile isDigitCh
      !d1.isEmpty && !d2.isEmpty && (r3.dropWhile isDigitCh).isEmpty
  | _ => false

/-- The regular expression test for explicitly signed American odds:
`+` or `-` followed by one or more digits, anchored at both ends. -/
def matchSignedInt : List Char → Bool
  | c :: rest => (c = '+' || c = '-') && !rest.isEmpty && rest.all isDigitCh
  | [] => false

/-- Value of a digit string. -/
def digitsToNat (l : List Char) : ℕ :=
  l.foldl (fun acc c => 10 * acc + (c.toNat - 48)) 0

/-- Parse an unsigned decimal mantissa prefix (`123`, `123.45`, `123.`,
`.45`); returns the value and the unconsumed remainder, or `none` when no
digit is present. -/
def parseMantissa (l : List Char) : Option (ℚ × List Char) :=
  let ip := l.takeWhile isDigitCh
  let r1 := l.dropWhile isDigitCh
  match r1 with
  | '.' :: r2 =>
      let fp := r2.takeWhile isDigitCh
      let r3 := r2.dropWhile isDigitCh
      if ip.isEmpty && fp.isEmpty then none
      else some ((digitsToNat ip : ℚ) + (digitsToNat fp : ℚ) / ((10 : ℚ) ^ fp.length), r3)
  | _ => if ip.isEmpty then none else some ((digitsToNat ip : ℚ), r1)

/-- Parse an optional exponent suffix (`e5`, `E-3`); an incomplete exponent
contributes nothing, as in `parseFloat`'s longest-valid-prefix rule. -/
def parseExp (l : List Char) : ℤ :=
  match l with
  | c :: rest =>
      if c = 'e' || c = 'E' then
        match rest with
        | s :: rest2 =>
            if s = '+' then
              (if (rest2.takeWhile isDigitCh).isEmpty then 0
               else (digitsToNat (rest2.takeWhile isDigitCh) : ℤ))
            else if s = '-' then
              (if (rest2.takeWhile isDigitCh).isEmpty then 0
               else -(digitsToNat (rest2.takeWhile isDigitCh) : ℤ))
            else
              (if (rest.takeWhile isDigitCh).isEmpty then 0
               else (digitsToNat (rest.takeWhile isDigitCh) : ℤ))
        | [] => 0
      else 0
  | [] => 0

/-- Signed part of `parseFloat`, after leading whitespace and sign have been
consumed. -/
def parseSignedMantissa (sgn : ℚ) (l : List Char) : JSNum :=
  if l.take 8 = ['I', 'n', 'f', 'i', 'n', 'i', 't', 'y'] then
    (if sgn = 1 then .inf else .ninf)
  else
    match parseMantissa l with
    | none => .nan
    | some (m, rest) => .fin (sgn * m * (10 : ℚ) ^ parseExp rest)

/-- JavaScript `parseFloat`: skip leading whitespace, optional sign, then the
longest valid decimal-literal (or `Infinity`) prefix; NaN when none exists. -/
def jsParseFloatList (l0 : List Char) : JSNum :=
  match l0.dropWhile isWsCh with
  | '+' :: r => parseSignedMantissa 1 r
  | '-' :: r => parseSignedMantissa (-1) r
  | l => parseSignedMantissa 1 l

/-- JavaScript `parseInt(s, 10)`: skip leading whitespace, optional sign, then
the longest digit prefix; NaN when none exists. -/
def jsParseIntList (l0 : List Char) : JSNum :=
  let l := l0.dropWhile isWsCh
  let core (sgn : ℚ) (r : List Char) : JSNum :=
    let d := r.takeWhile isDigitCh
    if d.isEmpty then .nan else .fin (sgn * (digitsToNat d : ℚ))
  match l with
  | '+' :: r => core 1 r
  | '-' :: r => core (-1) r
  | _ => core 1 l

/-- JavaScript `String.prototype.split('/')` (empty parts preserved). -/
def splitOnSlashAux : List Char → List Char → List (List Char)
  | [], acc => [acc.reverse]
  | c :: rest, acc =>
      if c = '/' then acc.reverse :: splitOnSlashAux rest []
      else splitOnSlashAux rest (c :: acc)

/-- Split a character list at every `/`. -/
def splitOnSlash (l : List Char) : List (List Char) := splitOnSlashAux l []

-- ────────────────────────────────────────────────────────────
--  Odds-format detection & conversion → Decimal  (surebet.ts, Revision 4)
-- ────────────────────────────────────────────────────────────

/-- The six odds notations of the source's `OddsFormat` union type. -/
inductive OddsFormat where
  | decimal
  | fractional
  | american
  | hongkong
  | indonesian
  | malay
deriving DecidableEq, Repr

/-- A raw odds value: `string | number`. -/
inductive RawOdd where
  | str (s : String)
  | num (x : JSNum)
deriving DecidableEq, Repr

/-- Thrown errors of the normalizer: `Error('Invalid odds value: …')` for an
unparseable string, and `RangeError('Suspicious decimal odd … derived from …')`
for a derived decimal outside the plausibility guardrails.  The error carries
the data that the source interpolates into the message string. -/
inductive OddsError where
  | malformed (input : String)
  | suspicious (input : RawOdd) (derived : JSNum)
deriving DecidableEq, Repr

deriving instance DecidableEq for Except

/-- Guardrail lower bound (`const DECIMAL_MIN = 1.01`). -/
def DECIMAL_MIN : ℚ := 101 / 100

/-- Guardrail upper bound (`const DECIMAL_MAX = 1_000`). -/
def DECIMAL_MAX : ℚ := 1000

/-- The numeric classification at the end of `detectOddsFormat`, shared by
number inputs and by string inputs that fall through to `parseFloat`. -/
def detectNum (n : JSNum) : OddsFormat :=
  if jge n (.fin 100) && jsIsInteger n then
    (if jeq (jmod n (.fin 5)) (.fin 0) then .american else .decimal)
  else if jge n (.fin 1) then .decimal
  else if jgt n (.fin 0) && jlt n (.fin 1) then .hongkong
  else if jgt (jabs n) (.fin 1) then .indonesian
  else .malay

/-- `detectOddsFormat` of the source: string patterns first (fractional and
explicitly signed American), then `parseFloat` with a thrown error on NaN,
then the numeric heuristics. -/
def detectOddsFormat : RawOdd → Except OddsError OddsFormat
  | .str s =>
      let trimmed := jsTrim s.toList
      if matchFractional trimmed then .ok .fractional
      else if matchSignedInt trimmed then .ok .american
      else
        let n := jsParseFloatList trimmed
        if jsIsNaN n then .error (.malformed (String.mk trimmed))
        else .ok (detectNum n)
  | .num n => .ok (detectNum n)

/-- `typeof raw === 'number' ? raw : parseFloat(raw)`. -/
def rawParseFloat : RawOdd → JSNum
  | .num x => x
  | .str s => jsParseFloatList s.toList

/-- `typeof raw === 'number' ? raw : parseInt(raw, 10)`. -/
def rawParseInt : RawOdd → JSNum
  | .num x => x
  | .str s => jsParseIntList s.toList

/-- The `switch (format)` of `toDecimal`, computing the derived decimal value
`dec` before the guardrail check.  The `.num` case of the fractional branch is
unreachable (`detectOddsFormat` classifies only strings as fractional). -/
def deriveDecimal (raw : RawOdd) : Except OddsError JSNum :=
  match detectOddsFormat raw with
  | .error e => .error e
  | .ok format =>
      .ok (match format with
        | .decimal => rawParseFloat raw
        | .fractional =>
            (match raw with
             | .str s =>
                 (match (splitOnSlash s.toList).map
                         (fun p => jsParseFloatList (jsTrim p)) with
                  | nu :: de :: _ => jadd (.fin 1) (jdiv nu de)
                  | _ => .nan)
             | .num _ => .nan)
        | .american =>
            let val := rawParseInt raw
            if jgt val (.fin 0) then jadd (.fin 1) (jdiv val (.fin 100))
            else jadd (.fin 1) (jdiv (.fin 100) (jabs val))
        | .hongkong => jadd (rawParseFloat raw) (.fin 1)
        | .indonesian =>
            let indo := rawParseFloat raw
            if jgt indo (.fin 0) then jadd indo (.fin 1)
            else jadd (.fin 1) (jdiv (.fin 1) (jabs indo))
        | .malay =>
            let my := rawParseFloat raw
            if jgt my (.fin 0) then jadd my (.fin 1)
            else jadd (.fin 1) (jdiv (.fin 1) (jabs my)))

/-- `toDecimal` of the source: derive the decimal value, then apply the
plausibility guardrail (`RangeError` outside `[DECIMAL_MIN, DECIMAL_MAX]`). -/
def toDecimal (raw : RawOdd) : Except OddsError JSNum :=
  match deriveDecimal raw with
  | .error e => .error e
  | .ok dec =>
      if jlt dec (.fin DECIMAL_MIN) || jgt dec (.fin DECIMAL_MAX) then
        .error (.suspicious raw dec)
      else .ok dec

-- ────────────────────────────────────────────────────────────
--  Core data structures
-- ────────────────────────────────────────────────────────────

/-- One priced outcome of a market. -/
structure Outcome where
  outcome : String
  odd : RawOdd
  broker : String
deriving DecidableEq, Repr

/-- A sports event: descriptive metadata plus the priced outcomes. -/
structure SportEvent where
  market : String
  sport : String
  league : Option String
  date : Option String
  home : String
  away : String
  country : Option String
  outcomes : List Outcome
deriving DecidableEq, Repr

/-- One leg of a computed allocation. -/
structure AllocationLeg where
  outcome : String
  broker : String
  odd : JSNum
  stake : JSNum
deriving DecidableEq, Repr

/-- The distinct result messages of the evaluator, one tag per message string
of the source ('Calculator supports only 2- or 3-way markets.', the message of
a caught normalization error, 'No arbitrage opportunity for these odds.', and
the high-margin advisory). -/
inductive Message where
  | unsupportedSize
  | normalizationError (e : OddsError)
  | noArbitrage
  | highMargin
deriving DecidableEq, Repr

/-- The evaluator's result value. -/
structure SurebetResult where
  isSurebet : Bool
  allocation : Option (List AllocationLeg)
  payout : JSNum
  profit : JSNum
  surebetPercentage : JSNum
  message : Option Message
deriving DecidableEq, Repr

-- ────────────────────────────────────────────────────────────
--  Arbitrage calculator (2- & 3-way markets)
-- ────────────────────────────────────────────────────────────

/-- `event.outcomes.map((o) => toDecimal(o.odd))` inside the `try` block:
the first thrown error aborts the whole map. -/
def mapToDecimal : List Outcome → Except OddsError (List JSNum)
  | [] => .ok []
  | o :: rest =>
      match toDecimal o.odd with
      | .error e => .error e
      | .ok d =>
          match mapToDecimal rest with
          | .error e => .error e
          | .ok ds => .ok (d :: ds)

/-- The body of `calculateSurebetAllocation` after the market-size guard has
passed: normalization with the `try`/`catch`, the arbitrage test, and the
allocation.  (The source's index-based `map((out, idx) => …)` over two
equal-length lists is rendered as a `zip`.) -/
def afterSizeCheck (event : SportEvent) (totalStake : JSNum) : SurebetResult :=
  match mapToDecimal event.outcomes with
  | .error e =>
      { isSurebet := false, allocation := none, payout := .fin 0, profit := .fin 0,
        surebetPercentage := .fin 0, message := some (.normalizationError e) }
  | .ok decOdds =>
      let inverseSum := decOdds.foldl (fun acc o => jadd acc (jdiv (.fin 1) o)) (.fin 0)
      if jge inverseSum (.fin 1) then
        { isSurebet := false, allocation := none, payout := .fin 0, profit := .fin 0,
          surebetPercentage := round2 (jmul inverseSum (.fin 100)),
          message := some .noArbitrage }
      else
        let payoutPerOutcome := jdiv totalStake inverseSum
        let allocation := (event.outcomes.zip decOdds).map (fun p =>
          { outcome := p.1.outcome, broker := p.1.broker, odd := round2 p.2,
            stake := round2 (jdiv payoutPerOutcome p.2) : AllocationLeg })
        let profit := jsub payoutPerOutcome totalStake
        { isSurebet := true, allocation := some allocation,
          payout := round2 payoutPerOutcome, profit := round2 profit,
          surebetPercentage := round2 (jmul inverseSum (.fin 100)),
          message := if jgt (jdiv profit totalStake) (.fin (1/5)) then some .highMargin
                     else none }

/-- `calculateSurebetAllocation` of the source (Revision 4): reject market
sizes other than 2 or 3, then evaluate. -/
def calculateSurebetAllocation (event : SportEvent) (totalStake : JSNum) : SurebetResult :=
  let n := event.outcomes.length
  if n < 2 ∨ n > 3 then
    { isSurebet := false, allocation := none, payout := .fin 0, profit := .fin 0,
      surebetPercentage := .fin 0, message := some .unsupportedSize }
  else afterSizeCheck event totalStake

-- ────────────────────────────────────────────────────────────
--  Concrete markets used to evaluate the claims
-- ────────────────────────────────────────────────────────────

/-- A two-way market with decimal odds 2.1 and 2.5 (an arbitrage). -/
def evArb : SportEvent :=
  { market := "Match Winner", sport := "Football", league := none, date := none,
    home := "H", away := "A", country := none,
    outcomes := [
      { outcome := "Home", odd := .num (.fin (21 / 10)), broker := "bk1" },
      { outcome := "Away", odd := .num (.fin (5 / 2)), broker := "bk2" }] }

/-- A two-way market with decimal odds 1.5 and 1.5 (no arbitrage). -/
def evNoArb : SportEvent :=
  { market := "Match Winner", sport := "Football", league := none, date := none,
    home := "H", away := "A", country := none,
    outcomes := [
      { outcome := "Home", odd := .num (.fin (3 / 2)), broker := "bk1" },
      { outcome := "Away", odd := .num (.fin (3 / 2)), broker := "bk2" }] }

/-- A two-way market with decimal odds 1.8 and 1.9 (no arbitrage). -/
def evNoArb2 : SportEvent :=
  { market := "Match Winner", sport := "Football", league := none, date := none,
    home := "H", away := "A", country := none,
    outcomes := [
      { outcome := "Home", odd := .num (.fin (9 / 5)), broker := "bk1" },
      { outcome := "Away", odd := .num (.fin (19 / 10)), broker := "bk2" }] }

/-- A two-way market whose first odd is the fractional string "0/0". -/
def evZeroFrac : SportEvent :=
  { market := "Total Goals", sport := "Football", league := none, date := none,
    home := "H", away := "A", country := none,
    outcomes := [
      { outcome := "Over", odd := .str "0/0", broker := "bk1" },
      { outcome := "Under", odd := .num (.fin 2), broker := "bk2" }] }

/-- A two-way market whose first odd is the numeric NaN. -/
def evNaN : SportEvent :=
  { market := "Match Winner", sport := "Tennis", league := none, date := none,
    home := "H", away := "A", country := none,
    outcomes := [
      { outcome := "Home", odd := .num .nan, broker := "bk1" },
      { outcome := "Away", odd := .num (.fin 2), broker := "bk2" }] }

/-- A one-outcome market (unsupported size). -/
def evOne : SportEvent :=
  { market := "Match Winner", sport := "Football", league := none, date := none,
    home := "H", away := "A", country := none,
    outcomes := [
      { outcome := "Home", odd := .num (.fin 2), broker := "bk1" }] }

/-- A plain two-way market used to check that the size guard passes. -/
def evTwo : SportEvent :=
  { market := "Match Winner", sport := "Football", league := none, date := none,
    home := "H", away := "A", country := none,
    outcomes := [
      { outcome := "Home", odd := .num (.fin (9 / 5)), broker := "bk1" },
      { outcome := "Away", odd := .num (.fin (19 / 10)), broker := "bk2" }] }

/-- A two-way market with decimal odds 2 and 34 (a high-margin arbitrage). -/
def evHigh : SportEvent :=
  { market := "Home/Away", sport := "Tennis", league := none, date := none,
    home := "H", away := "A", country := none,
    outcomes := [
      { outcome := "Home", odd := .num (.fin 2), broker := "bk1" },
      { outcome := "Away", odd := .num (.fin 34), broker := "bk2" }] }

/-- A two-way market with decimal odds 2.1 and 2.05 (a low-margin arbitrage). -/
def evArb2 : SportEvent :=
  { market := "Match Winner", sport := "Tennis", league := none, date := none,
    home := "H", away := "A", country := none,
    outcomes := [
      { outcome := "Home", odd := .num (.fin (21 / 10)), broker := "bk1" },
      { outcome := "Away", odd := .num (.fin (41 / 20)), broker := "bk2" }] }

-- ────────────────────────────────────────────────────────────
--  Reduction lemmas for the JavaScript-number model
-- ────────────────────────────────────────────────────────────

@[simp] lemma jadd_fin_fin (a b : ℚ) : jadd (.fin a) (.fin b) = .fin (a + b) := rfl

@[simp] lemma jsub_fin_fin (a b : ℚ) : jsub (.fin a) (.fin b) = .fin (a - b) := rfl

@[simp] lemma jmul_fin_fin (a b : ℚ) : jmul (.fin a) (.fin b) = .fin (a * b) := rfl

lemma jdiv_fin_fin {b : ℚ} (a : ℚ) (h : b ≠ 0) : jdiv (.fin a) (.fin b) = .fin (a / b) := by
  simp [jdiv, h]

@[simp] lemma jlt_fin_fin (a b : ℚ) : jlt (.fin a) (.fin b) = decide (a < b) := rfl

@[simp] lemma jgt_fin_fin (a b : ℚ) : jgt (.fin a) (.fin b) = decide (b < a) := rfl

@[simp] lemma jge_fin_fin (a b : ℚ) : jge (.fin a) (.fin b) = decide (b ≤ a) := rfl

@[simp] lemma round2_fin (q : ℚ) : round2 (.fin q) = .fin (round2Q q) := rfl

-- ────────────────────────────────────────────────────────────
--  Structural lemmas about the evaluator
-- ────────────────────────────────────────────────────────────

/-- A market of 2 or 3 outcomes passes the size guard. -/
lemma calculateSurebetAllocation_size_ok (ev : SportEvent) (t : JSNum)
    (h : ev.outcomes.length = 2 ∨ ev.outcomes.length = 3) :
    calculateSurebetAllocation ev t = afterSizeCheck ev t := by
  unfold calculateSurebetAllocation
  rw [if_neg]
  rcases h with h | h <;> omega

/-- Successful normalization of every outcome yields pointwise successful
`toDecimal` results. -/
lemma mapToDecimal_ok_forall {outs : List Outcome} {ds : List JSNum}
    (h : mapToDecimal outs = .ok ds) :
    List.Forall₂ (fun o d => toDecimal o.odd = .ok d) outs ds := by
  induction outs generalizing ds with
  | nil =>
      simp only [mapToDecimal] at h
      cases h
      exact List.Forall₂.nil
  | cons o rest ih =>
      simp only [mapToDecimal] at h
      cases htd : toDecimal o.odd with
      | error e => rw [htd] at h; cases h
      | ok d =>
          rw [htd] at h
          cases hrest : mapToDecimal rest with
          | error e => rw [hrest] at h; cases h
          | ok ds' =>
              rw [hrest] at h
              cases h
              exact List.Forall₂.cons htd (ih hrest)

/-- Successful normalization preserves the outcome count. -/
lemma mapToDecimal_length {outs : List Outcome} {ds : List JSNum}
    (h : mapToDecimal outs = .ok ds) : ds.length = outs.length :=
  (mapToDecimal_ok_forall h).length_eq.symm

/-- A successfully normalized finite decimal odd lies inside the guardrails. -/
lemma toDecimal_ok_range {raw : RawOdd} {q : ℚ} (h : toDecimal raw = .ok (.fin q)) :
    DECIMAL_MIN ≤ q ∧ q ≤ DECIMAL_MAX := by
  unfold toDecimal at h
  split at h
  · cases h
  · split at h
    · cases h
    · rename_i hg
      cases h
      simp only [jlt_fin_fin, jgt_fin_fin, Bool.or_eq_true, decide_eq_true_eq,
        not_or] at hg
      exact ⟨le_of_not_lt hg.1, le_of_not_lt hg.2⟩

/-- Every odd of a market whose odds all normalize to finite decimals lies
inside the guardrails. -/
lemma mapToDecimal_fin_range {outs : List Outcome} {O : List ℚ}
    (h : mapToDecimal outs = .ok (O.map .fin)) :
    ∀ q ∈ O, DECIMAL_MIN ≤ q ∧ q ≤ DECIMAL_MAX := by
  induction outs generalizing O with
  | nil =>
      simp only [mapToDecimal] at h
      cases O with
      | nil => intro q hq; cases hq
      | cons q O' => simp at h
  | cons o rest ih =>
      simp only [mapToDecimal] at h
      cases htd : toDecimal o.odd with
      | error e => rw [htd] at h; cases h
      | ok d =>
          rw [htd] at h
          cases hrest : mapToDecimal rest with
          | error e => rw [hrest] at h; cases h
          | ok ds' =>
              rw [hrest] at h
              cases O with
              | nil => simp at h
              | cons q O' =>
                  simp only [List.map_cons, Except.ok.injEq, List.cons.injEq] at h
                  obtain ⟨hd1, hd2⟩ := h
                  intro x hx
                  rcases List.mem_cons.mp hx with rfl | hx'
                  · exact toDecimal_ok_range (hd1 ▸ htd)
                  · exact ih (hrest.trans (by rw [hd2])) x hx'

/-- The `reduce` computing the implied-probability sum, evaluated on finite
decimal odds. -/
lemma foldl_inverseSum (O : List ℚ) (h : ∀ q ∈ O, q ≠ 0) :
    ∀ a : ℚ, (O.map JSNum.fin).foldl (fun acc o => jadd acc (jdiv (.fin 1) o)) (.fin a)
      = .fin (a + (O.map fun q => 1 / q).sum) := by
  induction O with
  | nil => intro a; simp
  | cons q rest ih =>
      intro a
      have hq : q ≠ 0 := h q (List.mem_cons_self q rest)
      have hrest : ∀ x ∈ rest, x ≠ 0 := fun x hx => h x (List.mem_cons_of_mem q hx)
      simp only [List.map_cons, List.foldl_cons, jdiv_fin_fin 1 hq, jadd_fin_fin,
        List.sum_cons]
      rw [ih hrest (a + 1 / q)]
      simp only [JSNum.fin.injEq]
      ring

/-- The sum of the implied probabilities of guardrail-passing odds is
positive when the market is non-empty. -/
lemma invSum_pos {O : List ℚ} (hpos : ∀ q ∈ O, 0 < q) (hne : O ≠ []) :
    0 < (O.map fun q => 1 / q).sum := by
  apply List.sum_pos
  · intro x hx
    obtain ⟨q, hq, rfl⟩ := List.mem_map.mp hx
    exact div_pos one_pos (hpos q hq)
  · simpa using hne

/-- For a market with at least two outcomes, each single odd times the
implied-probability sum exceeds 1. -/
lemma one_lt_mul_invSum {O : List ℚ} (hpos : ∀ x ∈ O, 0 < x) (hlen : 2 ≤ O.length)
    {q : ℚ} (hq : q ∈ O) : 1 < q * (O.map fun x => 1 / x).sum := by
  obtain ⟨l1, l2, rfl⟩ := List.append_of_mem hq
  have hq0 : 0 < q := hpos q (by simp)
  have hs1 : 0 ≤ (l1.map fun x => 1 / x).sum := by
    apply List.sum_nonneg
    intro x hx
    obtain ⟨y, hy, rfl⟩ := List.mem_map.mp hx
    exact le_of_lt (div_pos one_pos (hpos y (by simp [hy])))
  have hs2 : 0 ≤ (l2.map fun x => 1 / x).sum := by
    apply List.sum_nonneg
    intro x hx
    obtain ⟨y, hy, rfl⟩ := List.mem_map.mp hx
    exact le_of_lt (div_pos one_pos (hpos y (by simp [hy])))
  have hstrict : 0 < (l1.map fun x => 1 / x).sum + (l2.map fun x => 1 / x).sum := by
    cases l1 with
    | nil =>
        have hl2 : l2 ≠ [] := by
          intro hcon
          subst hcon
          simp at hlen
        have := invSum_pos
          (fun y hy => hpos y (List.mem_append_right _ (List.mem_cons_of_mem q hy))) hl2
        simp only [List.map_nil, List.sum_nil]
        linarith
    | cons y ys =>
        have hl1 : 0 < ((y :: ys).map fun x => 1 / x).sum :=
          invSum_pos (fun z hz => hpos z (List.mem_append_left _ hz)) (by simp)
        linarith
  rw [List.map_append, List.sum_append, List.map_cons, List.sum_cons]
  have hqq : q * (1 / q) = 1 := by field_simp
  calc 1 = q * (1 / q) := hqq.symm
    _ < q * (1 / q) + q * ((l1.map fun x => 1 / x).sum + (l2.map fun x => 1 / x).sum) := by
        nlinarith
    _ = q * ((l1.map fun x => 1 / x).sum + (1 / q + (l2.map fun x => 1 / x).sum)) := by ring

/-- Pulling a constant factor out of a mapped sum. -/
lemma sum_map_mul_left (c : ℚ) (f : ℚ → ℚ) (l : List ℚ) :
    (l.map fun x => c * f x).sum = c * (l.map f).sum := by
  induction l with
  | nil => simp
  | cons x xs ih => simp [ih, mul_add]

/-- Two-decimal rounding moves a value by at most half a cent. -/
lemma round2Q_close (x : ℚ) : |round2Q x - x| ≤ 1 / 200 := by
  have h := abs_sub_round (x * 100)
  unfold round2Q
  have : ((round (x * 100) : ℤ) : ℚ) / 100 - x = -((x * 100 - (round (x * 100) : ℤ)) / 100) := by
    ring
  rw [this, abs_neg, abs_div, abs_of_pos (by norm_num : (0:ℚ) < 100)]
  linarith

/-- Rounding each list entry to two decimals moves the sum by at most half a
cent per entry. -/
lemma sum_round2_close (l : List ℚ) :
    |(l.map round2Q).sum - l.sum| ≤ (l.length : ℚ) * (1 / 200) := by
  induction l with
  | nil => simp
  | cons x xs ih =>
      simp only [List.map_cons, List.sum_cons, List.length_cons]
      have h1 := round2Q_close x
      calc |round2Q x + (xs.map round2Q).sum - (x + xs.sum)|
          = |(round2Q x - x) + ((xs.map round2Q).sum - xs.sum)| := by ring_nf
        _ ≤ |round2Q x - x| + |(xs.map round2Q).sum - xs.sum| := abs_add _ _
        _ ≤ 1 / 200 + (xs.length : ℚ) * (1 / 200) := by linarith
        _ = ((xs.length : ℚ) + 1) * (1 / 200) := by ring
        _ = (((xs.length : ℕ) + 1 : ℕ) : ℚ) * (1 / 200) := by push_cast; ring

/-- Mapping over a zip when the function only uses the second component. -/
lemma zip_map_snd {α β γ : Type} (f : β → γ) :
    ∀ (l1 : List α) (l2 : List β), l1.length = l2.length →
      (l1.zip l2).map (fun p => f p.2) = l2.map f := by
  intro l1
  induction l1 with
  | nil =>
      intro l2 h
      cases l2 with
      | nil => rfl
      | cons b bs => simp at h
  | cons a as ih =>
      intro l2 h
      cases l2 with
      | nil => simp at h
      | cons b bs =>
          simp only [List.zip_cons_cons, List.map_cons]
          rw [ih bs (by simpa using h)]

/-- Extracting the stakes of the allocation built by the success path. -/
lemma stakes_of_alloc (P : JSNum) :
    ∀ (outs : List Outcome) (ds : List JSNum), outs.length = ds.length →
    (((outs.zip ds).map fun p =>
      ({ outcome := p.1.outcome, broker := p.1.broker, odd := round2 p.2,
         stake := round2 (jdiv P p.2) : AllocationLeg })).map AllocationLeg.stake)
      = ds.map fun d => round2 (jdiv P d) := by
  intro outs
  induction outs with
  | nil =>
      intro ds h
      cases ds with
      | nil => rfl
      | cons d ds' => simp at h
  | cons o os ih =>
      intro ds h
      cases ds with
      | nil => simp at h
      | cons d ds' =>
          simp only [List.zip_cons_cons, List.map_cons]
          rw [ih ds' (by simpa using h)]

/-- The per-leg stake division evaluated on finite decimal odds. -/
lemma map_round2_jdiv_fin (Pq : ℚ) (O : List ℚ) (h0 : ∀ q ∈ O, q ≠ 0) :
    (O.map JSNum.fin).map (fun d => round2 (jdiv (.fin Pq) d))
      = O.map fun q => round2 (.fin (Pq / q)) := by
  induction O with
  | nil => rfl
  | cons q rest ih =>
      have hq : q ≠ 0 := h0 q (List.mem_cons_self q rest)
      simp only [List.map_cons]
      rw [jdiv_fin_fin Pq hq, ih (fun x hx => h0 x (List.mem_cons_of_mem q hx))]

/-- The no-arbitrage path of the evaluator, for a market whose odds all
normalize to finite decimals with implied-probability sum at least 1. -/
lemma afterSizeCheck_noArb (ev : SportEvent) (t : JSNum) (O : List ℚ)
    (hnorm : mapToDecimal ev.outcomes = .ok (O.map .fin))
    (h0 : ∀ q ∈ O, q ≠ 0)
    (hge : 1 ≤ (O.map fun q => 1 / q).sum) :
    afterSizeCheck ev t =
      { isSurebet := false, allocation := none, payout := .fin 0, profit := .fin 0,
        surebetPercentage := round2 (.fin ((O.map fun q => 1 / q).sum * 100)),
        message := some .noArbitrage } := by
  simp only [afterSizeCheck, hnorm]
  rw [foldl_inverseSum O h0 0, zero_add]
  rw [if_pos (by simp only [jge_fin_fin]; exact decide_eq_true hge)]
  simp only [jmul_fin_fin]

/-- The success path of the evaluator, for a market whose odds all normalize
to finite decimals with implied-probability sum below 1. -/
lemma afterSizeCheck_success (ev : SportEvent) (t : ℚ) (O : List ℚ)
    (hnorm : mapToDecimal ev.outcomes = .ok (O.map .fin))
    (h0 : ∀ q ∈ O, q ≠ 0)
    (hS0 : (O.map fun q => 1 / q).sum ≠ 0)
    (hlt : (O.map fun q => 1 / q).sum < 1) :
    afterSizeCheck ev (.fin t) =
      { isSurebet := true,
        allocation := some ((ev.outcomes.zip (O.map JSNum.fin)).map fun p =>
          { outcome := p.1.outcome, broker := p.1.broker, odd := round2 p.2,
            stake := round2 (jdiv (.fin (t / (O.map fun q => 1 / q).sum)) p.2) }),
        payout := round2 (.fin (t / (O.map fun q => 1 / q).sum)),
        profit := round2 (.fin (t / (O.map fun q => 1 / q).sum - t)),
        surebetPercentage := round2 (.fin ((O.map fun q => 1 / q).sum * 100)),
        message := if jgt (jdiv (.fin (t / (O.map fun q => 1 / q).sum - t)) (.fin t))
                        (.fin (1 / 5)) then some .highMargin else none } := by
  simp only [afterSizeCheck, hnorm]
  rw [foldl_inverseSum O h0 0, zero_add]
  rw [if_neg (by simp only [jge_fin_fin, decide_eq_true_eq]; exact not_le.mpr hlt)]
  rw [jdiv_fin_fin t hS0]
  simp only [jsub_fin_fin, jmul_fin_fin]

/-- The JavaScript remainder by 5 of a non-negative integer-valued rational
vanishes exactly on multiples of 5. -/
lemma sub_five_trunc_eq_zero_iff (q : ℚ) (hden : q.den = 1) (hpos : 0 ≤ q) :
    (q - 5 * (jsTruncQ (q / 5) : ℚ) = 0) ↔ (5 : ℤ) ∣ q.num := by
  have hq : ((q.num : ℚ)) = q := by
    conv_rhs => rw [← Rat.num_div_den q]
    rw [hden]
    simp
  have htrunc : jsTruncQ (q / 5) = q.num / 5 := by
    unfold jsTruncQ
    rw [if_pos (by positivity)]
    conv_lhs => rw [← hq]
    have h5 : (5 : ℚ) = ((5 : ℕ) : ℚ) := by norm_num
    rw [h5, Rat.floor_intCast_div_natCast]
    norm_num
  rw [htrunc]
  constructor
  · intro h
    have : q.num - 5 * (q.num / 5) = 0 := by
      have := h
      rw [← hq] at this
      exact_mod_cast this
    have hmod : q.num % 5 = 0 := by omega
    exact Int.dvd_of_emod_eq_zero hmod
  · intro h
    obtain ⟨k, hk⟩ := h
    have hdiv : q.num / 5 = k := by omega
    rw [hdiv, ← hq, hk]
    push_cast
    ring

/-- The detector on an unsigned integer at least 100 applies the
divisible-by-5 tie-break. -/
lemma detect_int_ge100 (q : ℚ) (h100 : 100 ≤ q) (hden : q.den = 1) :
    detectOddsFormat (.num (.fin q))
      = .ok (if (5 : ℤ) ∣ q.num then .american else .decimal) := by
  show Except.ok (detectNum (.fin q)) = _
  unfold detectNum
  rw [if_pos]
  · congr 1
    have hcond : jeq (jmod (.fin q) (.fin 5)) (.fin 0) = decide ((5 : ℤ) ∣ q.num) := by
      simp only [jmod]
      rw [if_neg (by norm_num : ¬(5 : ℚ) = 0)]
      simp only [jeq]
      exact decide_eq_decide.mpr (sub_five_trunc_eq_zero_iff q hden (by linarith))
    rw [hcond]
    by_cases hdvd : (5 : ℤ) ∣ q.num
    · rw [if_pos (decide_eq_true hdvd), if_pos hdvd]
    · rw [if_neg, if_neg hdvd]
      simp [hdvd]
  · simp only [jge_fin_fin, jsIsInteger, Bool.and_eq_true, decide_eq_true_eq]
    exact ⟨h100, hden⟩

/-- The detector classifies any other number at least 1 (below 100, or not an
integer) as decimal. -/
lemma detect_decimal_plain (q : ℚ) (h1 : 1 ≤ q) (hor : q < 100 ∨ q.den ≠ 1) :
    detectOddsFormat (.num (.fin q)) = .ok .decimal := by
  show Except.ok (detectNum (.fin q)) = _
  unfold detectNum
  rw [if_neg, if_pos]
  · simp only [jge_fin_fin]
    exact decide_eq_true h1
  · simp only [jge_fin_fin, jsIsInteger, Bool.and_eq_true, decide_eq_true_eq, not_and]
    intro h100
    rcases hor with h | h
    · exact absurd h100 (not_le.mpr h)
    · exact h

/-- An in-range derived decimal passes the guardrail unchanged. -/
lemma toDecimal_of_derive_in_range {raw : RawOdd} {q : ℚ}
    (hd : deriveDecimal raw = .ok (.fin q))
    (h1 : DECIMAL_MIN ≤ q) (h2 : q ≤ DECIMAL_MAX) :
    toDecimal raw = .ok (.fin q) := by
  have hred : toDecimal raw
      = if (jlt (.fin q) (.fin DECIMAL_MIN) || jgt (.fin q) (.fin DECIMAL_MAX)) = true
        then .error (.suspicious raw (.fin q)) else .ok (.fin q) := by
    unfold toDecimal
    rw [hd]
  rw [hred, if_neg]
  simp only [jlt_fin_fin, jgt_fin_fin, Bool.or_eq_true, decide_eq_true_eq, not_or]
  exact ⟨not_lt.mpr h1, not_lt.mpr h2⟩

/-- An out-of-range derived decimal is rejected by the guardrail with the
range error. -/
lemma toDecimal_of_derive_out_range {raw : RawOdd} {q : ℚ}
    (hd : deriveDecimal raw = .ok (.fin q))
    (h : q < DECIMAL_MIN ∨ DECIMAL_MAX < q) :
    toDecimal raw = .error (.suspicious raw (.fin q)) := by
  have hred : toDecimal raw
      = if (jlt (.fin q) (.fin DECIMAL_MIN) || jgt (.fin q) (.fin DECIMAL_MAX)) = true
        then .error (.suspicious raw (.fin q)) else .ok (.fin q) := by
    unfold toDecimal
    rw [hd]
  rw [hred, if_pos]
  simp only [jlt_fin_fin, jgt_fin_fin, Bool.or_eq_true, decide_eq_true_eq]
  exact h

-- ────────────────────────────────────────────────────────────
--  Claims
-- ────────────────────────────────────────────────────────────

/-- Claim C1: for every market of 2 or 3 outcomes whose normalized decimal
odds `O i` satisfy `Σ 1/O i < 1` and every positive total stake `t`, the
evaluator reports a sure-bet and computes `payout_per_outcome = t / Σ 1/O i`
and `stake i = payout_per_outcome / O i` (two-decimal rounding applied only
for output); before any rounding `stake i * O i` equals `payout_per_outcome`
for every leg `i` and the stakes sum exactly to `t`, and after per-leg
rounding the stakes sum to within two cents of `t`. -/
theorem claim_C1_allocation (ev : SportEvent) (t : ℚ) (O : List ℚ)
    (hlen : ev.outcomes.length = 2 ∨ ev.outcomes.length = 3)
    (hnorm : mapToDecimal ev.outcomes = .ok (O.map .fin))
    (hsum : (O.map fun q => 1 / q).sum < 1)
    (hpos : 0 < t) :
    (calculateSurebetAllocation ev (.fin t)).isSurebet = true ∧
    (calculateSurebetAllocation ev (.fin t)).payout
        = round2 (.fin (t / (O.map fun q => 1 / q).sum)) ∧
    Option.map (List.map AllocationLeg.stake)
        (calculateSurebetAllocation ev (.fin t)).allocation
        = some (O.map fun q => round2 (.fin (t / (O.map fun q2 => 1 / q2).sum / q))) ∧
    (∀ q ∈ O, t / (O.map fun q2 => 1 / q2).sum / q * q
        = t / (O.map fun q2 => 1 / q2).sum) ∧
    (O.map fun q => t / (O.map fun q2 => 1 / q2).sum / q).sum = t ∧
    |(O.map fun q => round2Q (t / (O.map fun q2 => 1 / q2).sum / q)).sum - t| ≤ 2 / 100 := by
  have hrange := mapToDecimal_fin_range hnorm
  have hposq : ∀ q ∈ O, 0 < q := fun q hq =>
    lt_of_lt_of_le (by norm_num [DECIMAL_MIN]) (hrange q hq).1
  have h0 : ∀ q ∈ O, q ≠ 0 := fun q hq => ne_of_gt (hposq q hq)
  have hOlen : O.length = ev.outcomes.length := by
    have := mapToDecimal_length hnorm
    simpa using this
  have hne : O ≠ [] := by
    intro hcon
    subst hcon
    simp at hOlen
    rcases hlen with h | h <;> omega
  have hSpos : 0 < (O.map fun q => 1 / q).sum := invSum_pos hposq hne
  have hS0 : (O.map fun q => 1 / q).sum ≠ 0 := ne_of_gt hSpos
  have hcalc := (calculateSurebetAllocation_size_ok ev (.fin t) hlen).trans
    (afterSizeCheck_success ev t O hnorm h0 hS0 hsum)
  rw [hcalc]
  have hdivsum : (O.map fun q => t / (O.map fun q2 => 1 / q2).sum / q).sum = t := by
    have hfe : (fun q => t / (O.map fun q2 => 1 / q2).sum / q)
        = fun q => (t / (O.map fun q2 => 1 / q2).sum) * (1 / q) := by
      funext q
      rw [div_eq_mul_one_div]
    rw [hfe, sum_map_mul_left, div_mul_cancel₀ t hS0]
  refine ⟨rfl, rfl, ?_, ?_, hdivsum, ?_⟩
  · simp only [Option.map_some']
    rw [stakes_of_alloc _ ev.outcomes (O.map .fin) (by simp [hOlen])]
    rw [map_round2_jdiv_fin _ O h0]
  · intro q hq
    exact div_mul_cancel₀ _ (h0 q hq)
  · have hb := sum_round2_close (O.map fun q => t / (O.map fun q2 => 1 / q2).sum / q)
    rw [hdivsum, List.map_map, List.length_map] at hb
    have hcomp : (O.map (round2Q ∘ fun q => t / (O.map fun q2 => 1 / q2).sum / q))
        = O.map fun q => round2Q (t / (O.map fun q2 => 1 / q2).sum / q) := by
      simp [Function.comp]
    rw [hcomp] at hb
    have hlen3 : O.length ≤ 3 := by
      rw [hOlen]
      rcases hlen with h | h <;> omega
    have : ((O.length : ℚ)) * (1 / 200) ≤ 3 * (1 / 200) := by
      have : (O.length : ℚ) ≤ 3 := by exact_mod_cast hlen3
      linarith
    linarith

/-- Witness for claim C1 at the concrete market with decimal odds 2.1 and 2.5
and total stake 100. -/
theorem claim_C1_allocation_witness :
    (mapToDecimal evArb.outcomes = .ok ([21 / 10, 5 / 2].map .fin) ∧
     ([(21 : ℚ) / 10, 5 / 2].map fun q => 1 / q).sum < 1 ∧ (0 : ℚ) < 100) ∧
    (calculateSurebetAllocation evArb (.fin 100)).isSurebet = true :=
  ⟨⟨by with_unfolding_all decide, by with_unfolding_all decide, by norm_num⟩,
   (claim_C1_allocation evArb 100 [21 / 10, 5 / 2] (Or.inl rfl)
     (by with_unfolding_all decide) (by with_unfolding_all decide) (by norm_num)).1⟩

/-- Counterexample to claim C2 as stated: for the two-way market with decimal
odds 1.5 and 1.5 the implied sum is 4/3 ≥ 1, yet the returned
`edge_percentage` differs from `implied_sum * 100 = 133.33…`: the evaluator
stores the two-decimal rounding 133.33. -/
theorem claim_C2_counterexample :
    mapToDecimal evNoArb.outcomes = .ok ([3 / 2, 3 / 2].map .fin) ∧
    (1 : ℚ) ≤ ([(3 : ℚ) / 2, 3 / 2].map fun q => 1 / q).sum ∧
    (calculateSurebetAllocation evNoArb (.fin 100)).surebetPercentage
      ≠ .fin (([(3 : ℚ) / 2, 3 / 2].map fun q => 1 / q).sum * 100) :=
  ⟨by with_unfolding_all decide, by with_unfolding_all decide,
   by with_unfolding_all decide⟩

/-- Claim C2 (amended): for every market of 2 or 3 outcomes whose odds all
normalize to finite decimal odds with implied sum ≥ 1, the evaluator returns
`is_surebet = false` with payout and profit present and equal to zero, no
allocation, the no-arbitrage rejection reason, and an `edge_percentage` equal
to `implied_sum * 100` rounded to two decimals — hence at least 100. -/
theorem claim_C2_no_arbitrage (ev : SportEvent) (total : JSNum) (O : List ℚ)
    (hlen : ev.outcomes.length = 2 ∨ ev.outcomes.length = 3)
    (hnorm : mapToDecimal ev.outcomes = .ok (O.map .fin))
    (hsum : 1 ≤ (O.map fun q => 1 / q).sum) :
    (calculateSurebetAllocation ev total).isSurebet = false ∧
    (calculateSurebetAllocation ev total).payout = .fin 0 ∧
    (calculateSurebetAllocation ev total).profit = .fin 0 ∧
    (calculateSurebetAllocation ev total).allocation = none ∧
    (calculateSurebetAllocation ev total).message = some .noArbitrage ∧
    (calculateSurebetAllocation ev total).surebetPercentage
        = .fin (round2Q ((O.map fun q => 1 / q).sum * 100)) ∧
    jge (calculateSurebetAllocation ev total).surebetPercentage (.fin 100) = true := by
  have hrange := mapToDecimal_fin_range hnorm
  have h0 : ∀ q ∈ O, q ≠ 0 := fun q hq =>
    ne_of_gt (lt_of_lt_of_le (by norm_num [DECIMAL_MIN]) (hrange q hq).1)
  have hcalc := (calculateSurebetAllocation_size_ok ev total hlen).trans
    (afterSizeCheck_noArb ev total O hnorm h0 hsum)
  rw [hcalc]
  refine ⟨rfl, rfl, rfl, rfl, rfl, rfl, ?_⟩
  simp only [round2_fin, jge_fin_fin, decide_eq_true_eq]
  unfold round2Q
  rw [le_div_iff (by norm_num : (0 : ℚ) < 100)]
  have h1 : (10000 : ℤ) ≤ round ((O.map fun q => 1 / q).sum * 100 * 100) := by
    rw [round_eq, Int.le_floor]
    push_cast
    nlinarith [hsum]
  calc (100 : ℚ) * 100 = ((10000 : ℤ) : ℚ) := by norm_num
    _ ≤ ((round ((O.map fun q => 1 / q).sum * 100 * 100) : ℤ) : ℚ) := by
        exact_mod_cast h1

/-- Witness for the amended claim C2 at the concrete market with decimal odds
1.8 and 1.9 and total stake 100. -/
theorem claim_C2_no_arbitrage_witness :
    (mapToDecimal evNoArb2.outcomes = .ok ([9 / 5, 19 / 10].map .fin) ∧
     (1 : ℚ) ≤ ([(9 : ℚ) / 5, 19 / 10].map fun q => 1 / q).sum) ∧
    (calculateSurebetAllocation evNoArb2 (.fin 100)).isSurebet = false ∧
    jge (calculateSurebetAllocation evNoArb2 (.fin 100)).surebetPercentage (.fin 100) = true :=
  ⟨⟨by with_unfolding_all decide, by with_unfolding_all decide⟩,
   (claim_C2_no_arbitrage evNoArb2 (.fin 100) [9 / 5, 19 / 10] (Or.inl rfl)
      (by with_unfolding_all decide) (by with_unfolding_all decide)).1,
   (claim_C2_no_arbitrage evNoArb2 (.fin 100) [9 / 5, 19 / 10] (Or.inl rfl)
      (by with_unfolding_all decide) (by with_unfolding_all decide)).2.2.2.2.2.2⟩

/-- Claim C3: for every unsigned numeric odds value `q` that is an integer at
least 100, the detector classifies `q` as American exactly when `q` is
divisible by 5 and as decimal otherwise; every other number at least 1
(non-integer or below 100) is classified as decimal. -/
theorem claim_C3_detector_heuristic (q : ℚ) :
    ((100 ≤ q ∧ q.den = 1) →
      detectOddsFormat (.num (.fin q))
        = .ok (if (5 : ℤ) ∣ q.num then .american else .decimal)) ∧
    ((1 ≤ q ∧ (q < 100 ∨ q.den ≠ 1)) →
      detectOddsFormat (.num (.fin q)) = .ok .decimal) :=
  ⟨fun h => detect_int_ge100 q h.1 h.2, fun h => detect_decimal_plain q h.1 h.2⟩

/-- Witness for claim C3 at the integer 105 (a multiple of 5, classified as
American) and the non-integer 25.5 (classified as decimal). -/
theorem claim_C3_detector_heuristic_witness :
    ((100 ≤ (105 : ℚ) ∧ (105 : ℚ).den = 1) ∧
      detectOddsFormat (.num (.fin 105)) = .ok .american) ∧
    ((1 ≤ (51 / 2 : ℚ) ∧ (51 / 2 : ℚ) < 100) ∧
      detectOddsFormat (.num (.fin (51 / 2))) = .ok .decimal) := by
  constructor
  · refine ⟨⟨by norm_num, by with_unfolding_all decide⟩, ?_⟩
    have h := (claim_C3_detector_heuristic 105).1 ⟨by norm_num, by with_unfolding_all decide⟩
    rwa [if_pos (by with_unfolding_all decide)] at h
  · refine ⟨⟨by norm_num, by norm_num⟩, ?_⟩
    exact (claim_C3_detector_heuristic (51 / 2)).2
      ⟨by norm_num, Or.inl (by norm_num)⟩

/-- Claim C4: for every raw odds input whose derived decimal value is a
finite `q` with `DECIMAL_MIN ≤ q ≤ DECIMAL_MAX`, normalization returns `q`
unchanged (never clamped); when the derived value is strictly below
`DECIMAL_MIN` or strictly above `DECIMAL_MAX`, normalization fails with the
`ImplausibleOdds` range error carrying the offending input and derived value.
In particular `q = DECIMAL_MIN` is accepted and any value below it is
rejected. -/
theorem claim_C4_guardrail (raw : RawOdd) (q : ℚ)
    (hd : deriveDecimal raw = .ok (.fin q)) :
    ((DECIMAL_MIN ≤ q ∧ q ≤ DECIMAL_MAX) → toDecimal raw = .ok (.fin q)) ∧
    ((q < DECIMAL_MIN ∨ DECIMAL_MAX < q) →
      toDecimal raw = .error (.suspicious raw (.fin q))) :=
  ⟨fun h => toDecimal_of_derive_in_range hd h.1 h.2,
   fun h => toDecimal_of_derive_out_range hd h⟩

/-- Witness for claim C4: the boundary decimal 1.01 derives to itself and is
accepted unchanged, while 1.005 (one step below the minimum) derives to
itself and is rejected as suspicious. -/
theorem claim_C4_guardrail_witness :
    (deriveDecimal (.num (.fin (101 / 100))) = .ok (.fin (101 / 100)) ∧
     toDecimal (.num (.fin (101 / 100))) = .ok (.fin (101 / 100))) ∧
    (deriveDecimal (.num (.fin (201 / 200))) = .ok (.fin (201 / 200)) ∧
     toDecimal (.num (.fin (201 / 200)))
       = .error (.suspicious (.num (.fin (201 / 200))) (.fin (201 / 200)))) := by
  refine ⟨⟨by with_unfolding_all decide, ?_⟩, ⟨by with_unfolding_all decide, ?_⟩⟩
  · exact (claim_C4_guardrail _ _ (by with_unfolding_all decide)).1
      (by norm_num [DECIMAL_MIN, DECIMAL_MAX])
  · exact (claim_C4_guardrail _ _ (by with_unfolding_all decide)).2
      (Or.inl (by norm_num [DECIMAL_MIN]))

/-- Claim C5 (code bug): the fractional string "0/0" derives the decimal
value NaN, NaN passes the guardrail comparison unnoticed, and the evaluator
silently propagates it — reporting `is_surebet = true` with NaN payout,
profit and stakes instead of a typed rejection. -/
theorem claim_C5_nan_leak :
    toDecimal (.str "0/0") = .ok .nan ∧
    (calculateSurebetAllocation evZeroFrac (.fin 100)).isSurebet = true ∧
    (calculateSurebetAllocation evZeroFrac (.fin 100)).payout = .nan ∧
    (calculateSurebetAllocation evZeroFrac (.fin 100)).profit = .nan ∧
    Option.map (List.map AllocationLeg.stake)
        (calculateSurebetAllocation evZeroFrac (.fin 100)).allocation
      = some [.nan, .nan] :=
  ⟨by with_unfolding_all decide, by with_unfolding_all rfl, by with_unfolding_all rfl,
   by with_unfolding_all rfl, by with_unfolding_all rfl⟩

/-- Claim C6: a market whose outcome count is neither 2 nor 3 is cleanly
rejected with the unsupported-market-size reason (`is_surebet = false`, zero
figures, no allocation), and every market with exactly 2 or 3 outcomes passes
the size guard and proceeds to normalization and evaluation. -/
theorem claim_C6_market_size (ev : SportEvent) (total : JSNum) :
    ((ev.outcomes.length ≠ 2 ∧ ev.outcomes.length ≠ 3) →
      calculateSurebetAllocation ev total =
        { isSurebet := false, allocation := none, payout := .fin 0, profit := .fin 0,
          surebetPercentage := .fin 0, message := some .unsupportedSize }) ∧
    ((ev.outcomes.length = 2 ∨ ev.outcomes.length = 3) →
      calculateSurebetAllocation ev total = afterSizeCheck ev total) := by
  constructor
  · rintro ⟨h2, h3⟩
    unfold calculateSurebetAllocation
    rw [if_pos (by omega)]
  · exact calculateSurebetAllocation_size_ok ev total

/-- Witness for claim C6: a 1-outcome market is rejected with the
unsupported-size message, and a 2-outcome market proceeds to evaluation. -/
theorem claim_C6_market_size_witness :
    (calculateSurebetAllocation evOne (.fin 100) =
      { isSurebet := false, allocation := none, payout := .fin 0, profit := .fin 0,
        surebetPercentage := .fin 0, message := some .unsupportedSize }) ∧
    calculateSurebetAllocation evTwo (.fin 100) = afterSizeCheck evTwo (.fin 100) :=
  ⟨(claim_C6_market_size evOne (.fin 100)).1 ⟨by decide, by decide⟩,
   (claim_C6_market_size evTwo (.fin 100)).2 (Or.inl (by decide))⟩

/-- Claim C7: an accepted arbitrage market whose margin `profit / total`
exceeds the 0.20 threshold is still returned with `is_surebet = true` and the
full allocation; the high margin only attaches the non-fatal advisory
message and is never by itself a ground for rejection. -/
theorem claim_C7_high_margin (ev : SportEvent) (t : ℚ) (O : List ℚ)
    (hlen : ev.outcomes.length = 2 ∨ ev.outcomes.length = 3)
    (hnorm : mapToDecimal ev.outcomes = .ok (O.map .fin))
    (hpos : 0 < t)
    (hmargin : 1 / 5 < (t / (O.map fun q => 1 / q).sum - t) / t) :
    (calculateSurebetAllocation ev (.fin t)).isSurebet = true ∧
    Option.map List.length (calculateSurebetAllocation ev (.fin t)).allocation
      = some ev.outcomes.length ∧
    (calculateSurebetAllocation ev (.fin t)).message = some .highMargin := by
  have hrange := mapToDecimal_fin_range hnorm
  have hposq : ∀ q ∈ O, 0 < q := fun q hq =>
    lt_of_lt_of_le (by norm_num [DECIMAL_MIN]) (hrange q hq).1
  have h0 : ∀ q ∈ O, q ≠ 0 := fun q hq => ne_of_gt (hposq q hq)
  have hOlen : O.length = ev.outcomes.length := by
    have := mapToDecimal_length hnorm
    simpa using this
  have hne : O ≠ [] := by
    intro hcon
    subst hcon
    simp at hOlen
    rcases hlen with h | h <;> omega
  have hSpos : 0 < (O.map fun q => 1 / q).sum := invSum_pos hposq hne
  have hS0 : (O.map fun q => 1 / q).sum ≠ 0 := ne_of_gt hSpos
  have hsum : (O.map fun q => 1 / q).sum < 1 := by
    by_contra hge
    push_neg at hge
    have hPle : t / (O.map fun q => 1 / q).sum ≤ t := by
      rw [div_le_iff hSpos]
      nlinarith
    have hnp : (t / (O.map fun q => 1 / q).sum - t) / t ≤ 0 :=
      div_nonpos_iff.mpr (Or.inr ⟨by linarith, le_of_lt hpos⟩)
    linarith
  have hcalc := (calculateSurebetAllocation_size_ok ev (.fin t) hlen).trans
    (afterSizeCheck_success ev t O hnorm h0 hS0 hsum)
  rw [hcalc]
  refine ⟨rfl, ?_, ?_⟩
  · simp [List.length_zip, hOlen]
  · show (if jgt (jdiv (.fin (t / (O.map fun q => 1 / q).sum - t)) (.fin t))
        (.fin (1 / 5)) then some Message.highMargin else none) = some Message.highMargin
    rw [jdiv_fin_fin _ (ne_of_gt hpos)]
    rw [if_pos]
    simp only [jgt_fin_fin]
    exact decide_eq_true hmargin

/-- Witness for claim C7 at the market with decimal odds 2 and 34 and total
stake 100, whose margin is about 89%. -/
theorem claim_C7_high_margin_witness :
    (mapToDecimal evHigh.outcomes = .ok ([2, 34].map .fin) ∧
     (1 : ℚ) / 5 < (100 / ([(2 : ℚ), 34].map fun q => 1 / q).sum - 100) / 100) ∧
    (calculateSurebetAllocation evHigh (.fin 100)).isSurebet = true ∧
    (calculateSurebetAllocation evHigh (.fin 100)).message = some .highMargin :=
  ⟨⟨by with_unfolding_all decide, by with_unfolding_all decide⟩,
   (claim_C7_high_margin evHigh 100 [2, 34] (Or.inl rfl)
      (by with_unfolding_all decide) (by norm_num) (by with_unfolding_all decide)).1,
   (claim_C7_high_margin evHigh 100 [2, 34] (Or.inl rfl)
      (by with_unfolding_all decide) (by norm_num) (by with_unfolding_all decide)).2.2⟩

/-- Counterexample to claim C8 as stated: the numeric input 0 IS classified
by the detector (as Malay), and normalization fails with the ImplausibleOdds
range error (the derived decimal 1 + 1/0 is infinite), not with a
MalformedOdds error. -/
theorem claim_C8_counterexample :
    detectOddsFormat (.num (.fin 0)) = .ok .malay ∧
    toDecimal (.num (.fin 0)) = .error (.suspicious (.num (.fin 0)) .inf) :=
  ⟨by with_unfolding_all decide, by with_unfolding_all decide⟩

/-- Claim C8 (amended): for the numeric odds input exactly 0, the detector
classifies it as Malay, the conversion derives the infinite decimal
`1 + 1/0`, and the guardrail rejects it as ImplausibleOdds — so no decimal
value is produced, but the failure is the range error, not MalformedOdds. -/
theorem claim_C8_zero_input :
    detectOddsFormat (.num (.fin 0)) = .ok .malay ∧
    deriveDecimal (.num (.fin 0)) = .ok .inf ∧
    toDecimal (.num (.fin 0)) = .error (.suspicious (.num (.fin 0)) .inf) :=
  ⟨by with_unfolding_all decide, by with_unfolding_all decide,
   by with_unfolding_all decide⟩

/-- Counterexample to claim C9 as stated: 105 is a valid decimal odd inside
the plausibility range, yet normalization does not return it unchanged — the
divisible-by-5 heuristic reclassifies it as American and converts it to
2.05. -/
theorem claim_C9_counterexample :
    DECIMAL_MIN ≤ (105 : ℚ) ∧ (105 : ℚ) ≤ DECIMAL_MAX ∧
    toDecimal (.num (.fin 105)) = .ok (.fin (41 / 20)) ∧
    toDecimal (.num (.fin 105)) ≠ .ok (.fin 105) :=
  ⟨by norm_num [DECIMAL_MIN], by norm_num [DECIMAL_MAX],
   by with_unfolding_all decide, by with_unfolding_all decide⟩

/-- Claim C9 (amended): normalization is idempotent on every decimal odd in
the plausibility range that is not an integer ≥ 100 divisible by 5 (those are
reinterpreted as American): `toDecimal` returns such a value unchanged. -/
theorem claim_C9_idempotent (q : ℚ)
    (h1 : DECIMAL_MIN ≤ q) (h2 : q ≤ DECIMAL_MAX)
    (h3 : ¬(100 ≤ q ∧ q.den = 1 ∧ (5 : ℤ) ∣ q.num)) :
    toDecimal (.num (.fin q)) = .ok (.fin q) := by
  have hq1 : (1 : ℚ) ≤ q := le_trans (by norm_num [DECIMAL_MIN]) h1
  have hdet : detectOddsFormat (.num (.fin q)) = .ok .decimal := by
    by_cases hint : 100 ≤ q ∧ q.den = 1
    · have hnd : ¬(5 : ℤ) ∣ q.num := fun hd => h3 ⟨hint.1, hint.2, hd⟩
      rw [detect_int_ge100 q hint.1 hint.2, if_neg hnd]
    · by_cases h100 : 100 ≤ q
      · have hden : q.den ≠ 1 := fun hd => hint ⟨h100, hd⟩
        exact detect_decimal_plain q hq1 (Or.inr hden)
      · exact detect_decimal_plain q hq1 (Or.inl (not_le.mp h100))
  have hder : deriveDecimal (.num (.fin q)) = .ok (.fin q) := by
    unfold deriveDecimal
    rw [hdet]
    rfl
  exact toDecimal_of_derive_in_range hder h1 h2

/-- Witness for the amended claim C9 at the in-range non-integer decimal odd
2.5. -/
theorem claim_C9_idempotent_witness :
    (DECIMAL_MIN ≤ (5 / 2 : ℚ) ∧ (5 / 2 : ℚ) ≤ DECIMAL_MAX) ∧
    toDecimal (.num (.fin (5 / 2))) = .ok (.fin (5 / 2)) :=
  ⟨⟨by norm_num [DECIMAL_MIN], by norm_num [DECIMAL_MAX]⟩,
   claim_C9_idempotent (5 / 2) (by norm_num [DECIMAL_MIN]) (by norm_num [DECIMAL_MAX])
     (fun h => absurd h.1 (by norm_num))⟩

/-- Counterexample to claim C10 as stated: with a NaN-valued numeric odd the
evaluator reports `is_surebet = true` for the positive total stake 100, yet
the profit and both stakes are NaN — none of them strictly positive. -/
theorem claim_C10_counterexample :
    (0 : ℚ) < 100 ∧
    (calculateSurebetAllocation evNaN (.fin 100)).isSurebet = true ∧
    (calculateSurebetAllocation evNaN (.fin 100)).profit = .nan ∧
    jgt (calculateSurebetAllocation evNaN (.fin 100)).profit (.fin 0) = false ∧
    Option.map (List.map AllocationLeg.stake)
        (calculateSurebetAllocation evNaN (.fin 100)).allocation = some [.nan, .nan] :=
  ⟨by norm_num, by with_unfolding_all rfl, by with_unfolding_all rfl,
   by with_unfolding_all rfl, by with_unfolding_all rfl⟩

/-- Claim C10 (amended): whenever the evaluator returns `is_surebet = true`
for a positive total stake on a market whose odds all normalized to finite
decimals, the implied sum `S` is strictly between 0 and 1, the pre-rounding
payout `t/S` exceeds `t`, every pre-rounding stake `t/S/O i` is strictly
positive and strictly below `t`, the pre-rounding profit `t/S - t` is
strictly positive, and the returned profit and stakes are exactly the
two-decimal roundings of those values. -/
theorem claim_C10_positive_stakes (ev : SportEvent) (t : ℚ) (O : List ℚ)
    (hnorm : mapToDecimal ev.outcomes = .ok (O.map .fin))
    (hpos : 0 < t)
    (hsb : (calculateSurebetAllocation ev (.fin t)).isSurebet = true) :
    0 < (O.map fun q => 1 / q).sum ∧
    (O.map fun q => 1 / q).sum < 1 ∧
    t < t / (O.map fun q => 1 / q).sum ∧
    (∀ q ∈ O, 0 < t / (O.map fun q2 => 1 / q2).sum / q ∧
              t / (O.map fun q2 => 1 / q2).sum / q < t) ∧
    0 < t / (O.map fun q => 1 / q).sum - t ∧
    (calculateSurebetAllocation ev (.fin t)).profit
      = round2 (.fin (t / (O.map fun q => 1 / q).sum - t)) ∧
    Option.map (List.map AllocationLeg.stake)
        (calculateSurebetAllocation ev (.fin t)).allocation
      = some (O.map fun q => round2 (.fin (t / (O.map fun q2 => 1 / q2).sum / q))) := by
  have hrange := mapToDecimal_fin_range hnorm
  have hposq : ∀ q ∈ O, 0 < q := fun q hq =>
    lt_of_lt_of_le (by norm_num [DECIMAL_MIN]) (hrange q hq).1
  have h0 : ∀ q ∈ O, q ≠ 0 := fun q hq => ne_of_gt (hposq q hq)
  have hOlen : O.length = ev.outcomes.length := by
    have := mapToDecimal_length hnorm
    simpa using this
  have hlen : ev.outcomes.length = 2 ∨ ev.outcomes.length = 3 := by
    by_contra hc
    push_neg at hc
    unfold calculateSurebetAllocation at hsb
    rw [if_pos (by omega)] at hsb
    simp at hsb
  have hne : O ≠ [] := by
    intro hcon
    subst hcon
    simp at hOlen
    rcases hlen with h | h <;> omega
  have hSpos : 0 < (O.map fun q => 1 / q).sum := invSum_pos hposq hne
  have hS0 : (O.map fun q => 1 / q).sum ≠ 0 := ne_of_gt hSpos
  have hsum : (O.map fun q => 1 / q).sum < 1 := by
    by_contra hge
    push_neg at hge
    have hno := (calculateSurebetAllocation_size_ok ev (.fin t) hlen).trans
      (afterSizeCheck_noArb ev (.fin t) O hnorm h0 hge)
    rw [hno] at hsb
    simp at hsb
  have hcalc := (calculateSurebetAllocation_size_ok ev (.fin t) hlen).trans
    (afterSizeCheck_success ev t O hnorm h0 hS0 hsum)
  have hPgt : t < t / (O.map fun q => 1 / q).sum := by
    rw [lt_div_iff hSpos]
    nlinarith
  have hlen2 : 2 ≤ O.length := by
    rw [hOlen]
    rcases hlen with h | h <;> omega
  refine ⟨hSpos, hsum, hPgt, ?_, by linarith, ?_, ?_⟩
  · intro q hq
    have hq0 := hposq q hq
    constructor
    · positivity
    · have h1q : 1 < q * (O.map fun x => 1 / x).sum := one_lt_mul_invSum hposq hlen2 hq
      rw [div_div, div_lt_iff (by positivity)]
      nlinarith
  · rw [hcalc]
  · rw [hcalc]
    simp only [Option.map_some']
    rw [stakes_of_alloc _ ev.outcomes (O.map .fin) (by simp [hOlen])]
    rw [map_round2_jdiv_fin _ O h0]

/-- Witness for the amended claim C10 at the market with decimal odds 2.1 and
2.05 and total stake 100. -/
theorem claim_C10_positive_stakes_witness :
    (mapToDecimal evArb2.outcomes = .ok ([21 / 10, 41 / 20].map .fin) ∧
     (0 : ℚ) < 100 ∧
     (calculateSurebetAllocation evArb2 (.fin 100)).isSurebet = true) ∧
    (0 : ℚ) < ([(21 : ℚ) / 10, 41 / 20].map fun q => 1 / q).sum ∧
    ([(21 : ℚ) / 10, 41 / 20].map fun q => 1 / q).sum < 1 :=
  ⟨⟨by with_unfolding_all decide, by norm_num, by with_unfolding_all rfl⟩,
   (claim_C10_positive_stakes evArb2 100 [21 / 10, 41 / 20]
      (by with_unfolding_all decide) (by norm_num) (by with_unfolding_all rfl)).1,
   (claim_C10_positive_stakes evArb2 100 [21 / 10, 41 / 20]
      (by with_unfolding_all decide) (by norm_num) (by with_unfolding_all rfl)).2.1⟩
